import Mathlib

/-
Verification of the checkers engine (src/constants.py, src/main.py, src/minimax.py)
against its specification.  The Python classes Piece, Board and Game and the
minimax module are shallowly embedded below: object mutation becomes explicit
state passing, Python dicts become insertion-ordered association lists, Python
ints become Int, and Python floats (used only for evaluation scores and the
infinities of alpha-beta search) become exact rationals with explicit
plus/minus infinity.
-/

namespace Checkers

/- The rational operations of the library are marked irreducible, which would
keep concrete evaluation scores from reducing during elaboration; the tag
below restores plain unfolding for this file (the kernel never honored the
irreducibility marking in the first place). -/
attribute [local semireducible] Rat.add Rat.mul Rat.inv Rat.sub

/-- Board dimensions from constants.py: ROWS, COLS = 8, 8. -/
def ROWS : Int := 8

/-- Board dimensions from constants.py: ROWS, COLS = 8, 8. -/
def COLS : Int := 8

/-- The two piece colors.  The source uses the RGB tuples WHITE and BLACK from
constants.py; only their identities matter to the logic, so they are embedded
as a two-value type. -/
inductive Color where
  | white
  | black
deriving DecidableEq, Repr

/-- Embeds the Piece class of main.py.  The presentation-only fields x and y
(screen coordinates recomputed by calculate_position) are omitted: they are a
pure function of row and col and are never read by the game logic. -/
structure Piece where
  row : Int
  col : Int
  color : Color
  king : Bool
deriving DecidableEq, Repr

/-- A board cell: the source stores the int 0 for an empty cell and a Piece
object otherwise. -/
inductive Cell where
  | empty
  | piece (p : Piece)
deriving DecidableEq, Repr

/-- Embeds the Board class attributes: the 8x8 nested list of cells and the
four counters.  Counters are Int because the source compares black_left < 0,
so they must be able to go negative.  selected_piece is set in __init__ and
never used afterwards. -/
structure Board where
  grid : List (List Cell)
  selected_piece : Option Piece := none
  black_left : Int
  white_left : Int
  black_kings : Int
  white_kings : Int
deriving DecidableEq, Repr

/-- Python's board[r][c] read.  Every call site of get_piece in the source
stays within 0..7 (the search clamps its row ranges and breaks on column
bounds), so the bounds guard only totalizes the function. -/
def Board.get_piece (b : Board) (r c : Int) : Cell :=
  if 0 ≤ r ∧ r < ROWS ∧ 0 ≤ c ∧ c < COLS then
    (b.grid.getD r.toNat []).getD c.toNat Cell.empty
  else Cell.empty

/-- Python's board[r][c] = v write, with the same in-bounds caveat as
Board.get_piece. -/
def setCell (g : List (List Cell)) (r c : Int) (v : Cell) : List (List Cell) :=
  if 0 ≤ r ∧ r < ROWS ∧ 0 ≤ c ∧ c < COLS then
    g.set r.toNat ((g.getD r.toNat []).set c.toNat v)
  else g

/-- A destination key of the valid-move dict: a (row, col) pair. -/
abbrev Pos := Int × Int

/-- The valid-move dict of the source: destination cell mapped to the list of
pieces captured on the way there.  Python dicts preserve insertion order and
an update of an existing key keeps its position, so the dict is embedded as an
association list with those semantics. -/
abbrev Moves := List (Pos × List Piece)

/-- Python dict assignment d[k] = v: replace in place if the key is present,
append otherwise. -/
def mset (m : Moves) (k : Pos) (v : List Piece) : Moves :=
  if m.any (fun kv => decide (kv.1 = k)) then
    m.map (fun kv => if kv.1 = k then (k, v) else kv)
  else m ++ [(k, v)]

/-- Python dict.update(other): assign every key of other, in order. -/
def mupdate (m other : Moves) : Moves :=
  other.foldl (fun acc kv => mset acc kv.1 kv.2) m

/-- Python dict lookup d[k]; call sites guard membership first. -/
def mlookup (m : Moves) (k : Pos) : List Piece :=
  (((m.find? (fun kv => decide (kv.1 = k))).map (fun kv => kv.2)).getD [])

/-- Python range(start, stop, step) for the only steps the source uses,
1 and -1. -/
def rangeStep (start stop step : Int) : List Int :=
  if step = -1 then (List.range (start - stop).toNat).map (fun i => start - (i : Int))
  else (List.range (stop - start).toNat).map (fun i => start + (i : Int))

/-- Loop state of the row loop inside Board._search_left / _search_right:
the current column, the pending single-capture candidate (`last`), the
accumulated move dict, and a flag encoding Python's break. -/
structure SearchSt where
  col : Int
  last : List Piece
  moves : Moves
  done : Bool

/-- Embeds Board._search_left and Board._search_right of main.py as a single
function: the two methods are textually identical except for the column
boundary test (left < 0 versus right >= COLS) and the column step (-1 versus
+1), selected here by dirLeft.  The for-loop with break becomes a fold with a
done flag.  After a capture (`last` nonempty) lands on an empty cell the
source records the landing with its accumulated capture list, then recurses
forward-left and forward-right with the same row step, and — only when
is_king is true — also backward-left and backward-right with the reversed
step, then breaks.  The fuel argument only bounds the recursion depth: the
skipped list strictly grows with each nested call and holds pairwise distinct
board pieces, so depth never exceeds the 64 cells and a fuel of 100 is never
exhausted. -/
def searchDir : Nat → Bool → Board → Bool → Int → Int → Int → Color → Int → List Piece → Moves
  | 0, _, _, _, _, _, _, _, _, _ => []
  | fuel+1, dirLeft, b, is_king, start, stop, step, color, col0, skipped =>
    let rows := rangeStep start stop step
    let st := rows.foldl (fun (st : SearchSt) r =>
      if st.done then st
      else if (if dirLeft then st.col < 0 else st.col ≥ COLS) then { st with done := true }
      else
        match b.get_piece r st.col with
        | Cell.piece cur =>
          if cur ∈ skipped then { st with done := true }
          else if cur.color = color then { st with done := true }
          else { st with col := st.col + (if dirLeft then -1 else 1), last := [cur] }
        | Cell.empty =>
          if skipped ≠ [] ∧ st.last = [] then { st with done := true }
          else
            let val := if skipped ≠ [] then st.last ++ skipped else st.last
            let m1 := mset st.moves (r, st.col) val
            if st.last ≠ [] then
              let rowF := if step = -1 then max (r-3) (-1) else min (r+3) ROWS
              let m2 := mupdate m1 (searchDir fuel true b is_king (r+step) rowF step color (st.col-1) val)
              let m3 := mupdate m2 (searchDir fuel false b is_king (r+step) rowF step color (st.col+1) val)
              let m5 :=
                if is_king then
                  let rowB := if step = -1 then min (r+3) ROWS else max (r-3) (-1)
                  let m4 := mupdate m3 (searchDir fuel true b is_king (r-step) rowB (-step) color (st.col-1) val)
                  mupdate m4 (searchDir fuel false b is_king (r-step) rowB (-step) color (st.col+1) val)
                else m3
              { st with moves := m5, done := true }
            else { st with moves := m1, done := true }
      ) { col := col0, last := [], moves := [], done := false }
    st.moves

/-- Fuel for searchDir; see its doc comment for why 100 is never exhausted. -/
def searchFuel : Nat := 100

/-- All pieces of a color in board order (row-major), as in
Board.get_all_pieces. -/
def Board.get_all_pieces (b : Board) (color : Color) : List Piece :=
  b.grid.foldl (fun acc row =>
    row.foldl (fun acc2 cell =>
      match cell with
      | Cell.piece p => if p.color = color then acc2 ++ [p] else acc2
      | Cell.empty => acc2) acc) []

/-- The unfiltered `moves` dict built by Board.get_valid_moves before its
forced-capture filter: the four directional searches merged with dict.update,
upward ones when the piece is WHITE or a king, downward ones when BLACK or a
king. -/
def Board.raw_moves (b : Board) (p : Piece) : Moves :=
  let left := p.col - 1
  let right := p.col + 1
  let row := p.row
  let m0 : Moves := []
  let m2 :=
    if p.color = Color.white ∨ p.king then
      let m1 := mupdate m0 (searchDir searchFuel true b p.king (row-1) (max (row-3) (-1)) (-1) p.color left [])
      mupdate m1 (searchDir searchFuel false b p.king (row-1) (max (row-3) (-1)) (-1) p.color right [])
    else m0
  if p.color = Color.black ∨ p.king then
    let m3 := mupdate m2 (searchDir searchFuel true b p.king (row+1) (min (row+3) ROWS) 1 p.color left [])
    mupdate m3 (searchDir searchFuel false b p.king (row+1) (min (row+3) ROWS) 1 p.color right [])
  else m2

/-- Embeds Board.get_valid_moves: keep only the entries with a nonempty
capture list; if any survive return them with True, otherwise return the
unfiltered dict with False. -/
def Board.get_valid_moves (b : Board) (p : Piece) : Moves × Bool :=
  let moves := b.raw_moves p
  let valid_moves := moves.filter (fun kv => decide (kv.2 ≠ []))
  if valid_moves ≠ [] then (valid_moves, true) else (moves, false)

/-- Embeds Board.move of main.py.  The source swaps the two grid cells (the
destination is empty at every call site, so the moved piece's old cell becomes
the old destination content), then mutates the piece object in place with its
new coordinates; since that object is the occupant of its own cell, the
destination cell ends up holding the piece with updated fields.  Promotion:
the source calls piece.elevate_to_king() (setting king = True) BEFORE testing
`piece.color == WHITE and not piece.king`, so that test is always false and
the else branch increments black_kings unconditionally whenever the
destination row is 0 or ROWS - 1 — for white pieces and for pieces that were
already kings alike. -/
def Board.move (b : Board) (p : Piece) (row col : Int) : Board :=
  let promoted := row = ROWS - 1 ∨ row = 0
  let p2 : Piece := { p with row := row, col := col, king := if promoted then true else p.king }
  let grid1 := setCell (setCell b.grid p.row p.col (b.get_piece row col)) row col (Cell.piece p2)
  if promoted then { b with grid := grid1, black_kings := b.black_kings + 1 }
  else { b with grid := grid1 }

/-- One iteration of the Board.remove loop: clear the piece's cell and
decrement the matching color's remaining-piece counter.  The source's
`if piece != 0` guard is always true (the list holds Piece objects, and a
Piece never equals the int 0).  The king counters are not touched. -/
def removeStep (bb : Board) (p : Piece) : Board :=
  let bb1 := { bb with grid := setCell bb.grid p.row p.col Cell.empty }
  if p.color = Color.white then { bb1 with white_left := bb1.white_left - 1 }
  else { bb1 with black_left := bb1.black_left - 1 }

/-- Embeds Board.remove: the removal loop over the captured pieces. -/
def Board.remove (b : Board) (pieces : List Piece) : Board :=
  pieces.foldl removeStep b

/-- Embeds Board.evaluate:
(black_left + 0.5*black_kings) - (white_left + 0.5*white_kings), exactly in
the rationals. -/
def Board.evaluate (b : Board) : ℚ :=
  ((b.black_left : ℚ) + (1/2) * (b.black_kings : ℚ)) - ((b.white_left : ℚ) + (1/2) * (b.white_kings : ℚ))

/-- An element of the list built by Board.get_all_moves.  The source does
`moves.extend(valid_moves)` where valid_moves is the (dict, bool) TUPLE
returned by get_valid_moves, so the list receives two heterogeneous elements
per piece: the move dict and the capture flag. -/
inductive MoveItem where
  | mp (mv : Moves)
  | flag (s : Bool)
deriving DecidableEq, Repr

/-- Embeds Board.get_all_moves.  Because each piece contributes its (dict,
bool) pair regardless of whether the dict is empty, the result is empty
exactly when the color has no pieces on the grid. -/
def Board.get_all_moves (b : Board) (color : Color) : List MoveItem :=
  (b.get_all_pieces color).foldl (fun acc p =>
    let vm := b.get_valid_moves p
    acc ++ [MoveItem.mp vm.1, MoveItem.flag vm.2]) []

/-- Embeds Board.winner: BLACK if white_left <= 0, else WHITE if
black_left < 0, else BLACK if get_all_moves(WHITE) is empty, else WHITE if
get_all_moves(BLACK) is empty, else None. -/
def Board.winner (b : Board) : Option Color :=
  if b.white_left ≤ 0 then some Color.black
  else if b.black_left < 0 then some Color.white
  else if (b.get_all_moves Color.white).length = 0 then some Color.black
  else if (b.get_all_moves Color.black).length = 0 then some Color.white
  else none

/-- Embeds Board.create_board: dark squares of rows 0..2 get black pieces,
rows 5..7 white pieces, everything else empty. -/
def create_board : List (List Cell) :=
  (List.range 8).map (fun r =>
    (List.range 8).map (fun c =>
      if c % 2 = (r+1) % 2 then
        if r ≤ 2 then Cell.piece { row := (r : Int), col := (c : Int), color := Color.black, king := false }
        else if r ≥ 5 then Cell.piece { row := (r : Int), col := (c : Int), color := Color.white, king := false }
        else Cell.empty
      else Cell.empty))

/-- A freshly constructed Board: counters as set by Board.__init__ and the
grid from create_board. -/
def initial_board : Board :=
  { grid := create_board, black_left := 12, white_left := 12, black_kings := 0, white_kings := 0 }

/-- Builds a grid holding exactly the given pieces, each at its own (row, col);
a convenience for stating concrete test positions. -/
def gridOf (ps : List Piece) : List (List Cell) :=
  (List.range 8).map (fun r =>
    (List.range 8).map (fun c =>
      match ps.find? (fun p => decide (p.row = (r : Int) ∧ p.col = (c : Int))) with
      | some p => Cell.piece p
      | none => Cell.empty))

/-- A cell of a normalized board snapshot, as produced by
Game.prepare_board_state: 0 for empty or white, the tag strings B and BK for
black men and kings; pc is the transient state of a not-yet-rewritten piece
cell. -/
inductive NCell where
  | empty
  | b
  | bk
  | pc (p : Piece)
deriving DecidableEq, Repr

/-- A normalized board snapshot (the shape stored in Game.board_history). -/
abbrev NormBoard := List (List NCell)

/-- The identity injection of a grid into snapshot cells; in the source the
same list-of-lists object is reused and mutated, so no conversion appears
there. -/
def toNorm (g : List (List Cell)) : NormBoard :=
  g.map (fun row => row.map (fun c =>
    match c with
    | Cell.empty => NCell.empty
    | Cell.piece p => NCell.pc p))

/-- board[r][c] = v on a snapshot, bounds-guarded like setCell. -/
def nset (g : NormBoard) (r c : Int) (v : NCell) : NormBoard :=
  if 0 ≤ r ∧ r < ROWS ∧ 0 ≤ c ∧ c < COLS then
    g.set r.toNat ((g.getD r.toNat []).set c.toNat v)
  else g

/-- Embeds Game.prepare_board_state: scan the board row-major and rewrite
each piece cell at the piece's own (row, col) — 0 for white pieces, BK for
black kings, B for black men.  The source mutates the very list it iterates,
so each read here is from the current state; row and column counts are those
of the input (writes never resize).  Reading a cell that already holds a tag
would raise AttributeError in the source, which requires a piece whose stored
coordinates disagree with its slot; it is embedded as a skip, like the
empty-cell continue. -/
def prepare_board_state (board : NormBoard) : NormBoard :=
  (List.range board.length).foldl (fun st r =>
    (List.range (board.getD r []).length).foldl (fun st2 c =>
      match (st2.getD r []).getD c NCell.empty with
      | NCell.pc p =>
        if p.color = Color.white then nset st2 p.row p.col NCell.empty
        else if p.king then nset st2 p.row p.col NCell.bk
        else nset st2 p.row p.col NCell.b
      | _ => st2) st) board

/-- The normalized snapshot of a board, as built at the two places the source
needs one (the minimax terminal case and Game.ai_move): deep-copy the grid —
the identity on values — and normalize it in place. -/
def prepareSnap (b : Board) : NormBoard :=
  prepare_board_state (toNorm b.grid)

/-- Embeds the Game class state the core logic reads and writes.  The window,
FPS and the games_played / win counters are presentation-only and never read
by the move, search or history logic, so they are omitted.  Field defaults
mirror Game.__init__ (history_length = 15, ai = True, ai_intelligence = 4).
ai_intelligence is the minimax depth, a Nat: the source would recurse forever
on a negative depth and only ever uses the nonnegative default. -/
structure Game where
  board : Board
  turn : Color
  selected : Option Piece
  valid_moves : Moves
  board_history : List NormBoard
  history_length : Int := 15
  ai : Bool := true
  ai_intelligence : Nat := 4
deriving DecidableEq, Repr

/-- Embeds Game.get_skip_status: scan every piece of the color and remember
whether any get_valid_moves call reported a capture. -/
def Game.get_skip_status (g : Game) (color : Color) : Bool :=
  (g.board.get_all_pieces color).foldl
    (fun skp p => if (g.board.get_valid_moves p).2 then true else skp) false

/-- An alpha-beta score: the source works with Python floats, using
math.inf / -math.inf as initial bounds and otherwise only finite evaluation
values, embedded as exact rationals. -/
inductive EScore where
  | neginf
  | posinf
  | fin (q : ℚ)
deriving DecidableEq, Repr

/-- Float <= on the score values the search can produce (note
-inf <= -inf and inf <= inf are both true). -/
def EScore.leB : EScore → EScore → Bool
  | EScore.neginf, _ => true
  | _, EScore.posinf => true
  | EScore.posinf, _ => false
  | EScore.fin _, EScore.neginf => false
  | EScore.fin x, EScore.fin y => decide (x ≤ y)

/-- Float >= on scores. -/
def EScore.geB (x y : EScore) : Bool := EScore.leB y x

/-- Python max on scores: the first argument on ties. -/
def EScore.maxE (x y : EScore) : EScore := if x.geB y then x else y

/-- Python min on scores: the first argument on ties. -/
def EScore.minE (x y : EScore) : EScore := if x.leB y then x else y

/-- The terminal case of minimax (depth 0 or a winner): evaluate the
position, dividing by (history length - index of first occurrence) when the
normalized snapshot already occurs in the game's board history, and return
the position itself as the chosen board. -/
def minimax_end (position : Board) (game : Game) : EScore × Option Board :=
  let pos := prepareSnap position
  if pos ∈ game.board_history then
    (EScore.fin (position.evaluate /
        ((game.board_history.length : ℚ) - (game.board_history.indexOf pos : ℚ))),
     some position)
  else (EScore.fin position.evaluate, some position)

set_option linter.unusedVariables false in
/-- Embeds simulate_move of minimax.py: apply the move to the (already
copied) board and remove the skipped pieces, if any.  The game argument is
unused, as in the source. -/
def simulate_move (p : Piece) (mv : Pos) (board : Board) (game : Game) (skip : List Piece) : Board :=
  let b1 := board.move p mv.1 mv.2
  if skip ≠ [] then b1.remove skip else b1

/-- Embeds get_all_moves of minimax.py: first pass computes whether any piece
of the color has a capture; second pass skips capture-less pieces when one
does, and otherwise simulates every destination of the piece on a deep copy
of the board (deep copy is the identity on values here; the piece looked up
at (p.row, p.col) on the copy is p itself whenever pieces sit at their own
coordinates, and an empty cell there — on which the source would fail —
contributes nothing). -/
def mm_get_all_moves (board : Board) (color : Color) (game : Game) : List Board :=
  let skp := (board.get_all_pieces color).foldl
    (fun s p => if (board.get_valid_moves p).2 then true else s) false
  (board.get_all_pieces color).foldl (fun acc p =>
    let vm := board.get_valid_moves p
    if skp && !vm.2 then acc
    else vm.1.foldl (fun acc2 kv =>
      match board.get_piece p.row p.col with
      | Cell.piece tp => acc2 ++ [simulate_move tp kv.1 board game kv.2]
      | Cell.empty => acc2) acc) []

/-- Loop state of the alpha-beta loops in minimax: best score, best move, the
evolving bound (alpha in the max branch, beta in the min branch) and the
break flag. -/
structure MMSt where
  best : EScore
  bestMove : Option Board
  bound : EScore
  done : Bool

/-- Embeds minimax of minimax.py.  Terminal on depth 0 or an existing winner;
otherwise the maximizing branch enumerates BLACK's resulting boards and keeps
the move whose score is >= the best so far (ties therefore prefer the
later-enumerated move), updating alpha and breaking once beta <= alpha; the
minimizing branch is dual over WHITE's boards. -/
def minimax (position : Board) (depth : Nat) (max_player : Bool) (game : Game) (alpha beta : EScore) : EScore × Option Board :=
  match depth with
  | 0 => minimax_end position game
  | Nat.succ depth =>
    if (position.winner).isSome then minimax_end position game
    else if max_player then
      let moves := mm_get_all_moves position Color.black game
      let st := moves.foldl (fun (st : MMSt) mv =>
        if st.done then st
        else
          let score := (minimax mv depth (!max_player) game st.bound beta).1
          let best := if score.geB st.best then (score, some mv) else (st.best, st.bestMove)
          let a := EScore.maxE st.bound best.1
          { best := best.1, bestMove := best.2, bound := a, done := beta.leB a })
        { best := EScore.neginf, bestMove := none, bound := alpha, done := false }
      (st.best, st.bestMove)
    else
      let moves := mm_get_all_moves position Color.white game
      let st := moves.foldl (fun (st : MMSt) mv =>
        if st.done then st
        else
          let score := (minimax mv depth (!max_player) game alpha st.bound).1
          let best := if score.leB st.best then (score, some mv) else (st.best, st.bestMove)
          let bb := EScore.minE st.bound best.1
          { best := best.1, bestMove := best.2, bound := bb, done := bb.leB alpha })
        { best := EScore.posinf, bestMove := none, bound := beta, done := false }
      (st.best, st.bestMove)
termination_by structural depth

/-- Embeds Game._change_turn: clear the selection state, then flip the turn;
when the turn passes to BLACK and the automated opponent is enabled, run its
move at once.  Game._change_turn and Game.ai_move are mutually recursive in
the source; here the body of Game.ai_move (see ai_moveF below, which states
it once more on its own) is inlined at the nested call so that the recursion
is structural on the fuel.  The fuel only bounds that recursion: each nested
ai_move call needs the turn to be WHITE on entry here and leaves it WHITE
again, so the nesting depth never exceeds two and the fuel in the wrappers
below is never exhausted. -/
def change_turnF (fuel : Nat) (g : Game) : Game :=
  match fuel with
  | 0 =>
    let g1 := { g with valid_moves := [], selected := none }
    if g1.turn = Color.white then { g1 with turn := Color.black }
    else { g1 with turn := Color.white }
  | Nat.succ f =>
    let g1 := { g with valid_moves := [], selected := none }
    if g1.turn = Color.white then
      let g2 := { g1 with turn := Color.black }
      if g2.ai then
        match (minimax g2.board g2.ai_intelligence true g2 EScore.neginf EScore.posinf).2 with
        | none => g2
        | some nb =>
          let g3 := { g2 with board := nb }
          let temp := prepareSnap nb
          let hist := temp :: g3.board_history
          let hist2 := if (hist.length : Int) > g3.history_length then hist.dropLast else hist
          change_turnF f { g3 with board_history := hist2 }
      else g2
    else { g1 with turn := Color.white }
termination_by structural fuel

/-- Embeds Game.ai_move: run minimax at the configured depth for the
maximizing side; if it returns no board, return unchanged; otherwise adopt
the new board, push its normalized snapshot to the front of the history,
evict the last entry if the capacity is now exceeded, and change turn. -/
def ai_moveF (fuel : Nat) (g : Game) : Game :=
  match (minimax g.board g.ai_intelligence true g EScore.neginf EScore.posinf).2 with
  | none => g
  | some nb =>
    let g1 := { g with board := nb }
    let temp := prepareSnap nb
    let hist := temp :: g1.board_history
    let hist2 := if (hist.length : Int) > g1.history_length then hist.dropLast else hist
    change_turnF fuel { g1 with board_history := hist2 }

/-- Fuel for the Game.ai_move / Game._change_turn mutual recursion; see the
doc comment of change_turnF for why 4 is never exhausted. -/
def aiFuel : Nat := 4

/-- Game.ai_move at the never-exhausted fuel. -/
def Game.ai_move (g : Game) : Game := ai_moveF aiFuel g

/-- Game._change_turn at the never-exhausted fuel. -/
def Game.change_turn (g : Game) : Game := change_turnF aiFuel g

/-- Embeds Game._move: when a piece is selected, the clicked cell is empty
and it is a key of the current valid-move dict, apply the move, remove the
captured pieces (if any) and change turn, returning True; otherwise return
False with the state unchanged. -/
def Game.move_ (g : Game) (row col : Int) : Game × Bool :=
  let piece := g.board.get_piece row col
  match g.selected with
  | some sel =>
    if piece = Cell.empty ∧ (g.valid_moves.any (fun kv => decide (kv.1 = (row, col)))) = true then
      let b1 := g.board.move sel row col
      let skipped := mlookup g.valid_moves (row, col)
      let b2 := if skipped ≠ [] then b1.remove skipped else b1
      (Game.change_turn { g with board := b2 }, true)
    else (g, false)
  | none => (g, false)

/-- The selection half of Game.select (everything after the initial
already-selected block): succeed only on a piece of the side to move, and
fail — clearing the selection — when a capture is mandatory somewhere for
that color but this piece has none. -/
def selectPick (g : Game) (row col : Int) : Game × Bool :=
  match g.board.get_piece row col with
  | Cell.piece p =>
    if p.color = g.turn then
      let g1 := { g with selected := some p }
      let skip_stat := g1.get_skip_status g1.turn
      let vm := g1.board.get_valid_moves p
      let g2 := { g1 with valid_moves := vm.1 }
      if skip_stat && !vm.2 then
        ({ g2 with selected := none, valid_moves := [] }, false)
      else (g2, true)
    else (g, false)
  | Cell.empty => (g, false)

/-- Embeds Game.select.  With a piece already selected the source first
attempts the move; on failure it clears the selection and re-enters select —
whose already-selected block is then skipped, leaving exactly the selection
half — and in every case falls through to the selection half again. -/
def Game.select (g : Game) (row col : Int) : Game × Bool :=
  if g.selected.isSome then
    let mr := g.move_ row col
    if !mr.2 then
      let g2 := { mr.1 with selected := none, valid_moves := [] }
      let g3 := (selectPick g2 row col).1
      selectPick g3 row col
    else selectPick mr.1 row col
  else selectPick g row col

/-! Concrete positions used by the claim theorems below. -/

/-- A white man one step from the promotion row. -/
def c1_piece : Piece := { row := 1, col := 2, color := Color.white, king := false }

/-- The board holding only c1_piece. -/
def c1_board : Board :=
  { grid := gridOf [c1_piece], black_left := 0, white_left := 1, black_kings := 0, white_kings := 0 }

/-- A white piece that is already a king, one step from row 0. -/
def c1_king_piece : Piece := { row := 1, col := 4, color := Color.white, king := true }

/-- The board holding only c1_king_piece, with its king already counted. -/
def c1_king_board : Board :=
  { grid := gridOf [c1_king_piece], black_left := 0, white_left := 1, black_kings := 0, white_kings := 1 }

/-- The initial position with the white remaining-piece counter forced to 0,
the first branch of Board.winner. -/
def c2_board : Board := { initial_board with white_left := 0 }

/-- Modelled from the claim's own words, for comparison with Board.winner:
whether some piece of the color has at least one entry in its returned
valid-move dict. -/
def has_legal_move (b : Board) (c : Color) : Bool :=
  (b.get_all_pieces c).any (fun p => decide ((b.get_valid_moves p).1 ≠ []))

/-- Modelled from the claim's own words, for comparison with Board.winner:
WHITE if black's count is zero or fewer or black has no legal moves, BLACK if
white's count is negative or white has no legal moves, none otherwise. -/
def winner_claim_C2 (b : Board) : Option Color :=
  if b.black_left ≤ 0 ∨ has_legal_move b Color.black = false then some Color.white
  else if b.white_left < 0 ∨ has_legal_move b Color.white = false then some Color.black
  else none

/-- A board where WHITE still has a piece but that piece has no legal move (a
man on row 0 cannot advance), and BLACK has a piece as well. -/
def c2_blocked_board : Board :=
  { grid := gridOf [{ row := 0, col := 1, color := Color.white, king := false },
                    { row := 7, col := 2, color := Color.black, king := false }],
    black_left := 1, white_left := 1, black_kings := 0, white_kings := 0 }

/-- The initial position with black_left forced to 0. -/
def c3_board_black_zero : Board := { initial_board with black_left := 0 }

/-- The initial position with black_left forced to -1. -/
def c3_board_black_neg : Board := { initial_board with black_left := -1 }

/-- The initial position with white_left forced to 0. -/
def c3_board_white_zero : Board := { initial_board with white_left := 0 }

/-- A white piece with a capture available: black at (3,2), landing (2,3)
empty. -/
def c4_capture_piece : Piece := { row := 4, col := 1, color := Color.white, king := false }

/-- A white piece of the same board with only plain steps. -/
def c4_plain_piece : Piece := { row := 6, col := 5, color := Color.white, king := false }

/-- The black piece c4_capture_piece can jump. -/
def c4_victim : Piece := { row := 3, col := 2, color := Color.black, king := false }

/-- Board where one WHITE piece has a capture and another has none. -/
def c4_board : Board :=
  { grid := gridOf [c4_capture_piece, c4_plain_piece, c4_victim],
    black_left := 1, white_left := 2, black_kings := 0, white_kings := 0 }

/-- Game on c4_board with WHITE to move and nothing selected. -/
def c4_game : Game :=
  { board := c4_board, turn := Color.white, selected := none, valid_moves := [],
    board_history := [], ai := false }

/-- The white man on the initial board's leftmost cell of row 5. -/
def c5_piece : Piece := { row := 5, col := 0, color := Color.white, king := false }

/-- First capture victim of the C6 configuration. -/
def c6_victimA : Piece := { row := 3, col := 2, color := Color.black, king := false }

/-- Second victim, reachable from the first landing cell only by reversing
the row direction. -/
def c6_victimB : Piece := { row := 3, col := 4, color := Color.black, king := false }

/-- A white man at (4,1): jumping c6_victimA lands at (2,3), from which
capturing c6_victimB toward (4,5) needs the reversed row direction. -/
def c6_man : Piece := { row := 4, col := 1, color := Color.white, king := false }

/-- The same piece as a king. -/
def c6_king : Piece := { row := 4, col := 1, color := Color.white, king := true }

/-- The C6 configuration with the non-king mover. -/
def c6_man_board : Board :=
  { grid := gridOf [c6_man, c6_victimA, c6_victimB],
    black_left := 2, white_left := 1, black_kings := 0, white_kings := 0 }

/-- The C6 configuration with the king mover. -/
def c6_king_board : Board :=
  { grid := gridOf [c6_king, c6_victimA, c6_victimB],
    black_left := 2, white_left := 1, black_kings := 0, white_kings := 1 }

/-- A fresh game on the initial board with empty history. -/
def c7_game : Game :=
  { board := initial_board, turn := Color.white, selected := none, valid_moves := [],
    board_history := [] }

/-- A board with a winner (white_left = 0) and no BLACK piece, so BLACK's
move enumeration is empty while minimax still answers from its terminal
branch. -/
def c8x_board : Board :=
  { grid := gridOf [], black_left := 12, white_left := 0, black_kings := 0, white_kings := 0 }

/-- Game on c8x_board with search depth 1. -/
def c8x_game : Game :=
  { board := c8x_board, turn := Color.black, selected := none, valid_moves := [],
    board_history := [], ai_intelligence := 1 }

/-- A board with no winner where BLACK's only piece (a man stuck on row 7)
has no move at all. -/
def c8w_board : Board :=
  { grid := gridOf [{ row := 7, col := 0, color := Color.black, king := false },
                    { row := 3, col := 3, color := Color.white, king := false }],
    black_left := 1, white_left := 1, black_kings := 0, white_kings := 0 }

/-- Game on c8w_board with search depth 1. -/
def c8w_game : Game :=
  { board := c8w_board, turn := Color.black, selected := none, valid_moves := [],
    board_history := [], ai_intelligence := 1 }

/-- A two-piece board on which BLACK has exactly the moves (0,1)->(1,0) and
(0,1)->(1,2). -/
def c9_board : Board :=
  { grid := gridOf [{ row := 0, col := 1, color := Color.black, king := false },
                    { row := 7, col := 6, color := Color.white, king := false }],
    black_left := 1, white_left := 1, black_kings := 0, white_kings := 0 }

/-- Game on c9_board, BLACK to move, search depth 1, empty history. -/
def c9_game : Game :=
  { board := c9_board, turn := Color.black, selected := none, valid_moves := [],
    board_history := [], ai_intelligence := 1 }

/-- The board minimax selects for c9_game: the tie-breaking >= keeps the
later-enumerated child, black to (1,2). -/
def c9_result : Board :=
  { grid := gridOf [{ row := 1, col := 2, color := Color.black, king := false },
                    { row := 7, col := 6, color := Color.white, king := false }],
    black_left := 1, white_left := 1, black_kings := 0, white_kings := 0 }

/-- A white man of the initial board, removed in the C10 witness. -/
def c10_piece : Piece := { row := 5, col := 0, color := Color.white, king := false }

/-! Helper lemmas. -/

/-- Folding a two-element append over a list grows the accumulator by exactly
two per element. -/
theorem foldl_two_items_length {α β : Type} (f g : α → β) :
    ∀ (l : List α) (acc : List β),
      (l.foldl (fun acc2 p => acc2 ++ [f p, g p]) acc).length = acc.length + 2 * l.length := by
  intro l
  induction l with
  | nil => intro acc; simp
  | cons p l ih =>
    intro acc
    simp only [List.foldl_cons, ih]
    simp
    omega

/-- Board.get_all_moves contributes two list items per piece of the color,
independently of that piece's mobility. -/
theorem get_all_moves_length (b : Board) (c : Color) :
    (b.get_all_moves c).length = 2 * (b.get_all_pieces c).length := by
  have h := foldl_two_items_length (fun p => MoveItem.mp (b.get_valid_moves p).1)
      (fun p => MoveItem.flag (b.get_valid_moves p).2) (b.get_all_pieces c) []
  simpa [Board.get_all_moves] using h

/-- The mobility test inside Board.winner is really a piece-existence test:
the list is empty exactly when the color has no piece on the grid. -/
theorem get_all_moves_eq_nil_iff (b : Board) (c : Color) :
    ((b.get_all_moves c).length = 0) ↔ b.get_all_pieces c = [] := by
  rw [get_all_moves_length]
  constructor
  · intro h
    exact List.length_eq_zero.mp (by omega)
  · intro h
    rw [h]
    rfl

/-! Claim theorems. -/

/-- Claim C1 (code_bug).  The claim: moving a non-king piece onto row 0 or 7
sets its king flag and increments the king counter of its own color exactly
once, and moving an already-king piece changes neither counter.  The code
calls elevate_to_king before testing the king flag, so the white branch is
dead: moving this WHITE man onto row 0 leaves white_kings at 0 and increments
black_kings instead, and moving an already-king WHITE piece onto row 0
increments black_kings once more. -/
theorem C1_promotion_counter_bug :
    (c1_board.move c1_piece 0 3).white_kings = 0 ∧
    (c1_board.move c1_piece 0 3).black_kings = 1 ∧
    (c1_board.move c1_piece 0 3).get_piece 0 3 =
      Cell.piece { row := 0, col := 3, color := Color.white, king := true } ∧
    (c1_king_board.move c1_king_piece 0 5).white_kings = 1 ∧
    (c1_king_board.move c1_king_piece 0 5).black_kings = 1 := by
  decide

/-- Claim C3 (confirmed): every board with white_left <= 0 is scored a BLACK
win, and the count comparison for the other side is strictly asymmetric — on
the initial grid, black_left = 0 yields no winner while black_left = -1
yields WHITE. -/
theorem C3_winner_asymmetry :
    (∀ b : Board, b.white_left ≤ 0 → b.winner = some Color.black) ∧
    c3_board_black_zero.winner = none ∧
    c3_board_black_neg.winner = some Color.white := by
  refine ⟨?_, ?_, ?_⟩
  · intro b hb
    simp only [Board.winner]
    rw [if_pos hb]
  · decide
  · decide

/-- Witness for C3_winner_asymmetry: its universally quantified part applied
to the initial position with white_left forced to 0. -/
theorem C3_winner_asymmetry_witness :
    c3_board_white_zero.white_left ≤ 0 ∧ c3_board_white_zero.winner = some Color.black :=
  ⟨by decide, C3_winner_asymmetry.1 c3_board_white_zero (by decide)⟩

/-- Claim C2 (corrected), counterexample.  The claim predicts (swapping the
two count comparisons relative to the code) that a board with white_left = 0
and both sides mobile has no winner; Board.winner instead returns BLACK from
its first branch. -/
theorem C2_winner_counterexample :
    c2_board.winner = some Color.black ∧ winner_claim_C2 c2_board = none := by
  decide

/-- Claim C2 (corrected), amended.  Board.winner returns BLACK if
white_left <= 0; else WHITE if black_left < 0; else BLACK if the grid holds
no WHITE piece; else WHITE if it holds no BLACK piece; else none.  The
claimed no-legal-moves tests degenerate to piece-existence tests because
Board.get_all_moves appends two items per piece regardless of mobility, so a
side that still has pieces but no legal move does not end the game: on
c2_blocked_board, WHITE has a piece without any legal move and winner is
none, not BLACK. -/
theorem C2_winner_characterization :
    (∀ b : Board, b.winner =
      (if b.white_left ≤ 0 then some Color.black
       else if b.black_left < 0 then some Color.white
       else if b.get_all_pieces Color.white = [] then some Color.black
       else if b.get_all_pieces Color.black = [] then some Color.white
       else none)) ∧
    c2_blocked_board.winner = none ∧
    has_legal_move c2_blocked_board Color.white = false ∧
    c2_blocked_board.get_all_pieces Color.white ≠ [] := by
  refine ⟨?_, by decide, by decide, by decide⟩
  intro b
  simp only [Board.winner]
  by_cases h1 : b.white_left ≤ 0
  · simp [h1]
  · by_cases h2 : b.black_left < 0
    · simp [h1, h2]
    · by_cases h3 : b.get_all_pieces Color.white = []
      · have h3' : (b.get_all_moves Color.white).length = 0 :=
          (get_all_moves_eq_nil_iff b Color.white).mpr h3
        simp [h1, h2, h3, h3']
      · have h3' : ¬ (b.get_all_moves Color.white).length = 0 :=
          fun hh => h3 ((get_all_moves_eq_nil_iff b Color.white).mp hh)
        by_cases h4 : b.get_all_pieces Color.black = []
        · have h4' : (b.get_all_moves Color.black).length = 0 :=
            (get_all_moves_eq_nil_iff b Color.black).mpr h4
          simp [h1, h2, h3, h3', h4, h4']
        · have h4' : ¬ (b.get_all_moves Color.black).length = 0 :=
            fun hh => h4 ((get_all_moves_eq_nil_iff b Color.black).mp hh)
          simp [h1, h2, h3, h3', h4, h4']

/-- Claim C5 (confirmed): get_valid_moves returns (map, hasCapture) with
hasCapture true iff some value list of the returned map is nonempty; when any
discovered destination of the piece carries captures the returned map is the
capture-only filter of the discovered moves, and otherwise it is exactly the
discovered simple-step map, every entry mapped to the empty capture list. -/
theorem C5_per_piece_filter (b : Board) (p : Piece) :
    ((b.get_valid_moves p).2 = true ↔ ∃ kv ∈ (b.get_valid_moves p).1, kv.2 ≠ []) ∧
    ((∃ kv ∈ b.raw_moves p, kv.2 ≠ []) →
      (b.get_valid_moves p).1 = (b.raw_moves p).filter (fun kv => decide (kv.2 ≠ []))) ∧
    ((∀ kv ∈ b.raw_moves p, kv.2 = []) →
      (b.get_valid_moves p).1 = b.raw_moves p ∧ ∀ kv ∈ (b.get_valid_moves p).1, kv.2 = []) := by
  by_cases hF : (b.raw_moves p).filter (fun kv => decide (kv.2 ≠ [])) = []
  · have hvm : b.get_valid_moves p = (b.raw_moves p, false) := by
      simp only [Board.get_valid_moves]
      rw [if_neg (fun hcon => hcon hF)]
    have hall : ∀ kv ∈ b.raw_moves p, kv.2 = [] := by
      intro kv hkv
      have h := List.filter_eq_nil_iff.mp hF kv hkv
      simpa using h
    refine ⟨?_, ?_, ?_⟩
    · constructor
      · intro h
        rw [hvm] at h
        cases h
      · rintro ⟨kv, hkv, hne⟩
        rw [hvm] at hkv
        exact absurd (hall kv hkv) hne
    · rintro ⟨kv, hkv, hne⟩
      exact absurd (hall kv hkv) hne
    · intro _
      rw [hvm]
      exact ⟨rfl, hall⟩
  · have hvm : b.get_valid_moves p =
        ((b.raw_moves p).filter (fun kv => decide (kv.2 ≠ [])), true) := by
      simp only [Board.get_valid_moves]
      rw [if_pos hF]
    refine ⟨?_, ?_, ?_⟩
    · constructor
      · intro _
        obtain ⟨kv, hkv⟩ := List.exists_mem_of_ne_nil _ hF
        have h2 := (List.mem_filter.mp hkv).2
        refine ⟨kv, ?_, by simpa using h2⟩
        rw [hvm]
        exact hkv
      · intro _
        rw [hvm]
    · intro _
      rw [hvm]
    · intro hall
      exact absurd (List.filter_eq_nil_iff.mpr (fun kv hkv => by simp [hall kv hkv])) hF

/-- Witness for C5_per_piece_filter: on the initial board the white man at
(5,0) discovers only capture-free moves, so the returned map is the
discovered map itself. -/
theorem C5_per_piece_filter_witness :
    (initial_board.get_valid_moves c5_piece).1 = initial_board.raw_moves c5_piece ∧
    (initial_board.get_valid_moves c5_piece).2 = false :=
  ⟨((C5_per_piece_filter initial_board c5_piece).2.2 (by decide)).1, by decide⟩

/-- Claim C6 (corrected), counterexample.  The claim says the continuation
search after every capture explores all four diagonal directions for king and
non-king pieces alike.  On the C6 configuration the continuation from the
non-king's landing cell (2,3) never tries the reversed row direction, so the
double-capture destination (4,5) is missing from the man's moves even though
the same search for a king finds it. -/
theorem C6_continuation_counterexample :
    ((((4 : Int), (5 : Int)), [c6_victimB, c6_victimA]) ∈
      (c6_king_board.get_valid_moves c6_king).1) ∧
    c6_man_board.get_valid_moves c6_man = ([((2, 3), [c6_victimA])], true) ∧
    ¬ ((4 : Int), (5 : Int)) ∈ (c6_man_board.get_valid_moves c6_man).1.map Prod.fst := by
  decide

/-- Claim C6 (corrected), amended: after a capture the continuation search
explores all four diagonal directions only for kings; for a non-king it
continues only leftward and rightward in the same row direction, so on the C6
configuration the king's map gains the reversed-direction chain destination
(4,5) with both victims while the man's map holds only the single jump. -/
theorem C6_continuation_directions :
    c6_king_board.get_valid_moves c6_king =
      ([((2, 3), [c6_victimA]), ((4, 5), [c6_victimB, c6_victimA])], true) ∧
    c6_man_board.get_valid_moves c6_man = ([((2, 3), [c6_victimA])], true) := by
  decide

/-- Claim C4 (corrected), counterexample.  On c4_board the white piece at
(4,1) has a capture, yet get_valid_moves for the capture-less white piece at
(6,5) still returns its two plain-step entries: the capture filter is
per-piece, not color-wide. -/
theorem C4_forced_capture_counterexample :
    (c4_board.get_valid_moves c4_capture_piece).2 = true ∧
    c4_board.get_valid_moves c4_plain_piece = ([((5, 4), []), ((5, 6), [])], false) := by
  decide

/-- Game._move returns False without touching the state when the clicked
cell is occupied. -/
theorem move_blocked (g : Game) (row col : Int) (p sel : Piece)
    (hp : g.board.get_piece row col = Cell.piece p) (hsel : g.selected = some sel) :
    g.move_ row col = (g, false) := by
  simp [Game.move_, hsel, hp]

/-- The selection half of Game.select fails and clears the selection when the
clicked piece belongs to the side to move, a capture is mandatory somewhere
for that color, and this piece has none. -/
theorem selectPick_no_capture (g : Game) (row col : Int) (p : Piece)
    (hp : g.board.get_piece row col = Cell.piece p)
    (hc : p.color = g.turn)
    (hs : g.get_skip_status g.turn = true)
    (hn : (g.board.get_valid_moves p).2 = false) :
    selectPick g row col = ({ g with selected := none, valid_moves := [] }, false) := by
  rw [selectPick.eq_def, hp]
  simp [Game.get_skip_status] at hs
  simp [Game.get_skip_status, hc, hs, hn]

/-- Claim C4 (corrected), amended.  If any piece of the side to move has a
capture, get_valid_moves still returns the plain-step entries of a piece
without captures (the filter is per-piece only, see the counterexample), but
Game.select on such a piece returns False and leaves nothing selected. -/
theorem C4_forced_capture_selection (g : Game) (row col : Int) (p : Piece)
    (hp : g.board.get_piece row col = Cell.piece p)
    (hc : p.color = g.turn)
    (hs : g.get_skip_status g.turn = true)
    (hn : (g.board.get_valid_moves p).2 = false) :
    (g.select row col).2 = false ∧ (g.select row col).1.selected = none ∧
    (g.board.get_valid_moves p).1 = g.board.raw_moves p := by
  have hraw : (g.board.get_valid_moves p).1 = g.board.raw_moves p := by
    by_cases hF : (g.board.raw_moves p).filter (fun kv => decide (kv.2 ≠ [])) = []
    · simp only [Board.get_valid_moves]
      rw [if_neg (fun hcon => hcon hF)]
    · exfalso
      have htr : (g.board.get_valid_moves p).2 = true := by
        simp only [Board.get_valid_moves]
        rw [if_pos hF]
      rw [hn] at htr
      cases htr
  cases hsel : g.selected with
  | none =>
    have h1 := selectPick_no_capture g row col p hp hc hs hn
    have hsel_eq : g.select row col = ({ g with selected := none, valid_moves := [] }, false) := by
      simp only [Game.select, hsel, Option.isSome_none, Bool.false_eq_true, if_false]
      exact h1
    rw [hsel_eq]
    exact ⟨rfl, rfl, hraw⟩
  | some sel =>
    have hm := move_blocked g row col p sel hp hsel
    have h2 := selectPick_no_capture { g with selected := none, valid_moves := [] } row col p hp hc hs hn
    have hsel_eq : g.select row col = ({ g with selected := none, valid_moves := [] }, false) := by
      simp only [Game.select, hsel, Option.isSome_some, if_true, hm, h2]
      simp
    rw [hsel_eq]
    exact ⟨rfl, rfl, hraw⟩

/-- Witness for C4_forced_capture_selection: on c4_game, selecting the
capture-less white piece at (6,5) while (4,1) has a capture fails and leaves
nothing selected. -/
theorem C4_forced_capture_selection_witness :
    c4_game.get_skip_status c4_game.turn = true ∧
    (c4_game.board.get_valid_moves c4_plain_piece).2 = false ∧
    (c4_game.select 6 5).2 = false ∧ (c4_game.select 6 5).1.selected = none :=
  ⟨by decide, by decide,
    (C4_forced_capture_selection c4_game 6 5 c4_plain_piece (by decide) (by decide)
      (by decide) (by decide)).1,
    (C4_forced_capture_selection c4_game 6 5 c4_plain_piece (by decide) (by decide)
      (by decide) (by decide)).2.1⟩

/-- Claim C7 (confirmed): whenever depth is 0 or a winner exists, minimax
returns the position itself paired with its evaluation, divided by (history
length - first index of the normalized snapshot) when that snapshot occurs in
the game's board history, and undivided otherwise. -/
theorem C7_terminal_eval (position : Board) (depth : Nat) (mp : Bool) (game : Game)
    (a b : EScore) (i : Nat)
    (hterm : depth = 0 ∨ position.winner ≠ none) :
    (prepareSnap position ∈ game.board_history →
      game.board_history.indexOf (prepareSnap position) = i →
      minimax position depth mp game a b =
        (EScore.fin (position.evaluate /
          ((game.board_history.length : ℚ) - (i : ℚ))), some position)) ∧
    (prepareSnap position ∉ game.board_history →
      minimax position depth mp game a b = (EScore.fin position.evaluate, some position)) := by
  have hend : minimax position depth mp game a b = minimax_end position game := by
    cases depth with
    | zero => rfl
    | succ d =>
      rcases hterm with h0 | hw
      · exact absurd h0 (Nat.succ_ne_zero d)
      · have hS : (position.winner).isSome = true := Option.ne_none_iff_isSome.mp hw
        simp [minimax, hS]
  constructor
  · intro hmem hidx
    rw [hend]
    simp only [minimax_end]
    rw [if_pos hmem, hidx]
  · intro hnot
    rw [hend]
    simp only [minimax_end]
    rw [if_neg hnot]

/-- Witness for C7_terminal_eval: at depth 0 on the fresh game (empty
history) the search returns the raw evaluation 0 of the initial board with
the board itself. -/
theorem C7_terminal_eval_witness :
    minimax initial_board 0 true c7_game EScore.neginf EScore.posinf =
      (EScore.fin 0, some initial_board) := by
  have h := (C7_terminal_eval initial_board 0 true c7_game EScore.neginf EScore.posinf 0
      (Or.inl rfl)).2 (by decide)
  rw [h]
  decide

/-- Claim C8 (corrected), counterexample.  At depth 1 on a board that already
has a winner, BLACK has no enumerated resulting board and yet minimax answers
from its terminal branch with the position itself, not the none value the
claim predicts for every no-move root call at positive depth. -/
theorem C8_empty_root_counterexample :
    mm_get_all_moves c8x_board Color.black c8x_game = [] ∧
    (minimax c8x_board 1 true c8x_game EScore.neginf EScore.posinf).2 = some c8x_board := by
  decide

/-- Claim C8 (corrected), amended.  At positive depth on a position WITHOUT a
winner, an empty move enumeration for the side to move makes minimax return
the none board; and Game.ai_move, on receiving a none board, returns the game
state unchanged (board, turn and history included). -/
theorem C8_no_move_returns_none :
    (∀ (pos : Board) (d : Nat) (mp : Bool) (g : Game) (a b : EScore),
      pos.winner = none →
      mm_get_all_moves pos (if mp then Color.black else Color.white) g = [] →
      (minimax pos (d+1) mp g a b).2 = none) ∧
    (∀ g : Game,
      (minimax g.board g.ai_intelligence true g EScore.neginf EScore.posinf).2 = none →
      g.ai_move = g) := by
  constructor
  · intro pos d mp g a b hw hm
    cases mp with
    | false =>
      simp at hm
      simp [minimax, hw, hm]
    | true =>
      simp at hm
      simp [minimax, hw, hm]
  · intro g h
    simp [Game.ai_move, ai_moveF, h]

/-- Witness for C8_no_move_returns_none: on c8w_board (no winner, BLACK's
lone man stuck on row 7) the depth-1 search returns no board and ai_move
leaves the game untouched. -/
theorem C8_no_move_returns_none_witness :
    c8w_board.winner = none ∧
    mm_get_all_moves c8w_board Color.black c8w_game = [] ∧
    (minimax c8w_board 1 true c8w_game EScore.neginf EScore.posinf).2 = none ∧
    c8w_game.ai_move = c8w_game := by
  refine ⟨by decide, by decide, ?_, ?_⟩
  · exact C8_no_move_returns_none.1 c8w_board 0 true c8w_game EScore.neginf EScore.posinf
      (by decide) (by decide)
  · exact C8_no_move_returns_none.2 c8w_game
      (C8_no_move_returns_none.1 c8w_board 0 true c8w_game EScore.neginf EScore.posinf
        (by decide) (by decide))

/-- Claim C9 (confirmed): when the automated move produces a board, its
normalized snapshot is prepended to the front of the board history and the
oldest (last) entry is evicted exactly when the prepend exceeds the
configured capacity, so a history within capacity stays within capacity; the
capacity default set at construction is 15. -/
theorem C9_history_push (g : Game) (nb : Board)
    (ht : g.turn = Color.black)
    (hm : (minimax g.board g.ai_intelligence true g EScore.neginf EScore.posinf).2 = some nb) :
    (g.ai_move).board_history =
      (if ((prepareSnap nb :: g.board_history).length : Int) > g.history_length
       then (prepareSnap nb :: g.board_history).dropLast
       else prepareSnap nb :: g.board_history) ∧
    ((g.board_history.length : Int) ≤ g.history_length →
      (((g.ai_move).board_history.length : Int) ≤ g.history_length)) ∧
    ({ board := nb, turn := Color.white, selected := none, valid_moves := [],
       board_history := [] } : Game).history_length = 15 := by
  have hmain : (g.ai_move).board_history =
      (if ((prepareSnap nb :: g.board_history).length : Int) > g.history_length
       then (prepareSnap nb :: g.board_history).dropLast
       else prepareSnap nb :: g.board_history) := by
    simp only [Game.ai_move, ai_moveF, hm]
    simp [aiFuel, change_turnF, ht]
  refine ⟨hmain, ?_, rfl⟩
  intro hle
  rw [hmain]
  by_cases hc : ((prepareSnap nb :: g.board_history).length : Int) > g.history_length
  · rw [if_pos hc]
    have hdl : (prepareSnap nb :: g.board_history).dropLast.length = g.board_history.length := by
      simp [List.length_dropLast]
    rw [hdl]
    exact hle
  · rw [if_neg hc]
    push_cast at hc ⊢
    omega

set_option maxRecDepth 10000 in
/-- Witness for C9_history_push: on c9_game the depth-1 search produces
c9_result, whose snapshot becomes the whole (length-1) history. -/
theorem C9_history_push_witness :
    c9_game.turn = Color.black ∧
    (minimax c9_game.board c9_game.ai_intelligence true c9_game
      EScore.neginf EScore.posinf).2 = some c9_result ∧
    (c9_game.ai_move).board_history = [prepareSnap c9_result] := by
  refine ⟨rfl, by decide, ?_⟩
  have h := (C9_history_push c9_game c9_result rfl (by decide)).1
  rw [h]
  decide

/-- Reading back the written index of List.set. -/
theorem getD_set_self {α : Type} (l : List α) (i : Nat) (a d : α) :
    (l.set i a).getD i d = if i < l.length then a else d := by
  induction l generalizing i with
  | nil => simp
  | cons x xs ih =>
    cases i with
    | zero => simp
    | succ n => simpa using ih n

/-- Reading an index other than the written one of List.set. -/
theorem getD_set_ne {α : Type} (l : List α) (i j : Nat) (a d : α) (h : i ≠ j) :
    (l.set i a).getD j d = l.getD j d := by
  induction l generalizing i j with
  | nil => simp
  | cons x xs ih =>
    cases i with
    | zero =>
      cases j with
      | zero => exact absurd rfl h
      | succ m => simp
    | succ n =>
      cases j with
      | zero => simp
      | succ m => simpa using ih n m (fun hh => h (by rw [hh]))

/-- Reading past the end of a list yields the default. -/
theorem getD_of_le {α : Type} (l : List α) (n : Nat) (d : α) (h : l.length ≤ n) :
    l.getD n d = d := by
  induction l generalizing n with
  | nil => simp
  | cons x xs ih =>
    cases n with
    | zero => simp at h
    | succ m => simpa using ih m (by simpa using h)

/-- The grid of removeStep: the piece's cell cleared, counters aside. -/
theorem removeStep_grid (b : Board) (p : Piece) :
    (removeStep b p).grid = setCell b.grid p.row p.col Cell.empty := by
  by_cases hpc : p.color = Color.white <;> simp [removeStep, hpc]

/-- get_piece only reads the grid, so removeStep reads like its grid update. -/
theorem removeStep_get_piece (b : Board) (p : Piece) (r c : Int) :
    (removeStep b p).get_piece r c =
      Board.get_piece { b with grid := setCell b.grid p.row p.col Cell.empty } r c := by
  simp [Board.get_piece, removeStep_grid]

/-- Clearing a cell leaves that piece's coordinates reading empty. -/
theorem get_piece_clear_self (b : Board) (p : Piece) :
    Board.get_piece { b with grid := setCell b.grid p.row p.col Cell.empty } p.row p.col =
      Cell.empty := by
  simp only [Board.get_piece, setCell]
  by_cases hb : 0 ≤ p.row ∧ p.row < ROWS ∧ 0 ≤ p.col ∧ p.col < COLS
  · rw [if_pos hb, if_pos hb, getD_set_self]
    by_cases hr : p.row.toNat < b.grid.length
    · rw [if_pos hr, getD_set_self]
      by_cases hcn : p.col.toNat < (b.grid.getD p.row.toNat []).length
      · rw [if_pos hcn]
      · rw [if_neg hcn]
    · rw [if_neg hr]
      rfl
  · rw [if_neg hb]

/-- Clearing one cell does not change a read at different coordinates. -/
theorem get_piece_clear_ne (b : Board) (p : Piece) (r c : Int)
    (h : ¬(p.row = r ∧ p.col = c)) :
    Board.get_piece { b with grid := setCell b.grid p.row p.col Cell.empty } r c =
      b.get_piece r c := by
  simp only [Board.get_piece, setCell]
  by_cases hb : 0 ≤ p.row ∧ p.row < ROWS ∧ 0 ≤ p.col ∧ p.col < COLS
  · rw [if_pos hb]
    by_cases hrc : 0 ≤ r ∧ r < ROWS ∧ 0 ≤ c ∧ c < COLS
    · rw [if_pos hrc, if_pos hrc]
      by_cases hr : p.row.toNat = r.toNat
      · have hrow : p.row = r := by omega
        have hcol : p.col ≠ c := fun hcc => h ⟨hrow, hcc⟩
        have hcn : p.col.toNat ≠ c.toNat := by omega
        rw [hr, getD_set_self]
        by_cases hlen : r.toNat < b.grid.length
        · rw [if_pos hlen, getD_set_ne _ _ _ _ _ hcn]
        · rw [if_neg hlen, getD_of_le b.grid r.toNat [] (by omega)]
      · rw [getD_set_ne _ _ _ _ _ hr]
    · rw [if_neg hrc, if_neg hrc]
  · rw [if_neg hb]

/-- Board.remove never touches the king counters. -/
theorem remove_kings (ps : List Piece) : ∀ b : Board,
    (b.remove ps).white_kings = b.white_kings ∧ (b.remove ps).black_kings = b.black_kings := by
  induction ps with
  | nil => intro b; exact ⟨rfl, rfl⟩
  | cons p ps ih =>
    intro b
    have hstep : Board.remove b (p :: ps) = Board.remove (removeStep b p) ps := rfl
    rw [hstep, (ih (removeStep b p)).1, (ih (removeStep b p)).2]
    by_cases hpc : p.color = Color.white <;> simp [removeStep, hpc]

/-- Board.remove decrements each remaining-piece counter by the number of
removed pieces of that color. -/
theorem remove_counts (ps : List Piece) : ∀ b : Board,
    (b.remove ps).white_left =
      b.white_left - ((ps.filter (fun q => decide (q.color = Color.white))).length : Int) ∧
    (b.remove ps).black_left =
      b.black_left - ((ps.filter (fun q => decide (q.color = Color.black))).length : Int) := by
  induction ps with
  | nil => intro b; simp [Board.remove]
  | cons p ps ih =>
    intro b
    have hstep : Board.remove b (p :: ps) = Board.remove (removeStep b p) ps := rfl
    rw [hstep, (ih (removeStep b p)).1, (ih (removeStep b p)).2]
    cases hcolor : p.color with
    | white =>
      refine ⟨?_, ?_⟩
      all_goals simp [removeStep, hcolor, List.filter_cons]
      all_goals omega
    | black =>
      refine ⟨?_, ?_⟩
      all_goals simp [removeStep, hcolor, List.filter_cons]
      all_goals omega

/-- A cell that reads empty still reads empty after Board.remove: the loop
only ever clears cells. -/
theorem remove_keeps_empty (ps : List Piece) : ∀ (b : Board) (r c : Int),
    b.get_piece r c = Cell.empty → (b.remove ps).get_piece r c = Cell.empty := by
  induction ps with
  | nil => intro b r c h; exact h
  | cons p ps ih =>
    intro b r c h
    have hstep : Board.remove b (p :: ps) = Board.remove (removeStep b p) ps := rfl
    rw [hstep]
    apply ih
    rw [removeStep_get_piece]
    by_cases hsame : p.row = r ∧ p.col = c
    · rcases hsame with ⟨h1, h2⟩
      rw [← h1, ← h2]
      exact get_piece_clear_self b p
    · rw [get_piece_clear_ne b p r c hsame]
      exact h

/-- Every removed piece's cell reads empty after Board.remove. -/
theorem remove_clears (ps : List Piece) : ∀ (b : Board) (p : Piece), p ∈ ps →
    (b.remove ps).get_piece p.row p.col = Cell.empty := by
  induction ps with
  | nil => intro b p h; cases h
  | cons q ps ih =>
    intro b p hp
    have hstep : Board.remove b (q :: ps) = Board.remove (removeStep b q) ps := rfl
    rw [hstep]
    rcases List.mem_cons.mp hp with h | h
    · subst h
      apply remove_keeps_empty
      rw [removeStep_get_piece]
      exact get_piece_clear_self b p
    · exact ih (removeStep b q) p h

/-- Cells at none of the removed coordinates are unchanged by Board.remove. -/
theorem remove_frame_cells (ps : List Piece) : ∀ (b : Board) (r c : Int),
    (∀ p ∈ ps, ¬(p.row = r ∧ p.col = c)) →
    (b.remove ps).get_piece r c = b.get_piece r c := by
  induction ps with
  | nil => intro b r c _; rfl
  | cons q ps ih =>
    intro b r c hall
    have hstep : Board.remove b (q :: ps) = Board.remove (removeStep b q) ps := rfl
    rw [hstep, ih (removeStep b q) r c (fun p hp => hall p (List.mem_cons_of_mem q hp))]
    rw [removeStep_get_piece]
    exact get_piece_clear_ne b q r c (hall q (List.mem_cons_self q ps))

/-- Claim C10 (confirmed): Board.remove only decrements the remaining-piece
counters and clears the removed cells — the king counters are untouched even
when a removed piece is a king, other cells are untouched, and evaluate
therefore still carries every captured king's half-point bonus, shifting only
by the removed piece counts. -/
theorem C10_remove_frame (b : Board) (ps : List Piece) :
    (b.remove ps).white_kings = b.white_kings ∧
    (b.remove ps).black_kings = b.black_kings ∧
    (b.remove ps).white_left =
      b.white_left - ((ps.filter (fun q => decide (q.color = Color.white))).length : Int) ∧
    (b.remove ps).black_left =
      b.black_left - ((ps.filter (fun q => decide (q.color = Color.black))).length : Int) ∧
    (∀ p ∈ ps, (b.remove ps).get_piece p.row p.col = Cell.empty) ∧
    (∀ r c : Int, (∀ p ∈ ps, ¬(p.row = r ∧ p.col = c)) →
      (b.remove ps).get_piece r c = b.get_piece r c) ∧
    (b.remove ps).evaluate = b.evaluate
      + ((ps.filter (fun q => decide (q.color = Color.white))).length : ℚ)
      - ((ps.filter (fun q => decide (q.color = Color.black))).length : ℚ) := by
  refine ⟨(remove_kings ps b).1, (remove_kings ps b).2, (remove_counts ps b).1,
    (remove_counts ps b).2, fun p hp => remove_clears ps b p hp,
    fun r c hall => remove_frame_cells ps b r c hall, ?_⟩
  simp only [Board.evaluate, (remove_kings ps b).1, (remove_kings ps b).2,
    (remove_counts ps b).1, (remove_counts ps b).2]
  push_cast
  ring

/-- Witness for C10_remove_frame: removing the initial board's white man at
(5,0) drops white_left to 11, keeps white_kings at 0, and empties the cell. -/
theorem C10_remove_frame_witness :
    (initial_board.remove [c10_piece]).white_kings = 0 ∧
    (initial_board.remove [c10_piece]).white_left = 11 ∧
    (initial_board.remove [c10_piece]).get_piece 5 0 = Cell.empty := by
  have h := C10_remove_frame initial_board [c10_piece]
  refine ⟨?_, ?_, ?_⟩
  · rw [h.1]
    decide
  · rw [h.2.2.1]
    decide
  · exact h.2.2.2.2.1 c10_piece (by decide)

end Checkers
